import Mathlib

set_option maxRecDepth 100000

/-!
# Verification of the session-history core of cross-ai-browser

Shallow embedding of the session-capture / persist / retain pipeline:

* `src/core/history/SessionRecorder.js` — in-memory bounded recorder
  (`SessionRecorder.write`, `_trimBuffer`, `finalize`, `abort`);
* `src/core/history/StorageEngine.js` — cwd hashing, session paths,
  atomic write / read / delete;
* `src/core/history/RetentionPolicy.js` — `calculateCleanup`,
  `executeCleanup`;
* `src/core/HistoryManager.js` — `endSession` orchestration.

Bytes are `Nat` (JS `Buffer` entries), byte buffers are `List Nat`,
JS numbers holding byte counts are `Nat`, timestamps are `Nat` and are
cast to `Int` where the source subtracts them.  Stateful code is embedded
as explicit state passing; fallible code returns `Except String`
(the source throws plain `Error` objects carrying only a message).
Wall-clock reads (`Date.now()`) are passed in as explicit `now`
arguments; asynchronous I/O failure is injected through explicit
failure-schedule arguments.
-/

deriving instance DecidableEq for Except

namespace CrossAI

/-! ## Byte buffers -/

/-- Total length of a list of byte chunks (JS sums `chunk.length`). -/
def sumLen (l : List (List Nat)) : Nat := (l.map List.length).sum

/-- Bytes of an ASCII string, as `Buffer.from(string)` produces for
ASCII content (each char one byte). -/
def strBytes (s : String) : List Nat := s.toList.map Char.toNat

/-- ASCII decoding, the restriction of `buffer.toString('utf-8')` to
single-byte content; used to read back captured text. -/
def decodeAscii (l : List Nat) : String := String.mk (l.map Char.ofNat)

/-! ## SessionRecorder (src/core/history/SessionRecorder.js) -/

/-- Source: `MAX_BUFFER_SIZE = 100 * 1024 * 1024` (100 MiB). -/
def MAX_BUFFER_SIZE : Nat := 100 * 1024 * 1024

/-- Source: `MAX_BUFFER_SIZE * 0.8` from `_trimBuffer`.  The JS double product
`104857600 * 0.8` rounds to exactly `83886080.0`, so the comparison
`totalSize - removedSize > targetSize` agrees with the integer
comparison against `83886080`. -/
def trimTargetSize : Nat := 83886080

/-- The marker `'\n[...earlier output truncated...]\n'` prepended by
`_trimBuffer` (34 bytes). -/
def truncationMarker : List Nat := strBytes "\n[...earlier output truncated...]\n"

/-- In-flight recorder state: `chunks`, `totalSize`, and the two
lifecycle flags of `SessionRecorder`. -/
structure SessionRecorder where
  chunks : List (List Nat)
  totalSize : Nat
  isAborted : Bool
  isFinalized : Bool
deriving DecidableEq, Repr

/-- Constructor state: empty buffer, Active. -/
def SessionRecorder.init : SessionRecorder :=
  { chunks := [], totalSize := 0, isAborted := false, isFinalized := false }

/-- Source: `isActive()`: neither aborted nor finalized. -/
def SessionRecorder.isActive (r : SessionRecorder) : Bool :=
  !r.isAborted && !r.isFinalized

/-- The `while (this.chunks.length > 0 && this.totalSize - removedSize >
targetSize)` loop of `_trimBuffer`: drops chunks from the front,
accumulating `removedSize`; returns the surviving chunks and the final
`removedSize`.  `Nat` subtraction agrees with the JS subtraction here
because the loop guard compares against the positive `targetSize`. -/
def trimGo : List (List Nat) → Nat → Nat → List (List Nat) × Nat
  | [], _, removed => ([], removed)
  | c :: rest, totalSize, removed =>
    if totalSize - removed > trimTargetSize then
      trimGo rest totalSize (removed + c.length)
    else
      (c :: rest, removed)

/-- Source: `_trimBuffer()`: run the drop loop, subtract `removedSize`, then
prepend the truncation marker and add its length. -/
def SessionRecorder.trimBuffer (r : SessionRecorder) : SessionRecorder :=
  let p := trimGo r.chunks r.totalSize 0
  { r with
    chunks := truncationMarker :: p.1
    totalSize := (r.totalSize - p.2) + truncationMarker.length }

/-- Source: `write(data)`: no-op unless Active; push the chunk, grow
`totalSize`, and trim when `totalSize > MAX_BUFFER_SIZE`. -/
def SessionRecorder.write (r : SessionRecorder) (data : List Nat) : SessionRecorder :=
  if r.isAborted || r.isFinalized then r
  else
    let r1 : SessionRecorder :=
      { r with chunks := r.chunks ++ [data], totalSize := r.totalSize + data.length }
    if r1.totalSize > MAX_BUFFER_SIZE then r1.trimBuffer else r1

/-- Apply a sequence of `write` calls to a fresh recorder. -/
def writeAll (ds : List (List Nat)) : SessionRecorder :=
  ds.foldl SessionRecorder.write SessionRecorder.init

/-- Gzip compression at level 6 via `zlib.gzip`.  Modelled from the spec:
the zlib library is not part of src/; it is represented by a
header-tagged identity coding of which only the round-trip contract
with `gunzipBytes` and the determinism of sizes are used. -/
def gzipBytes (b : List Nat) : List Nat := 31 :: 139 :: b

/-- Gzip decompression via `zlib.gunzip`; fails (`Z_DATA_ERROR`, which
`readSession` maps to a corruption error) on data that is not a gzip
stream.  Modelled from the spec, matching `gzipBytes`. -/
def gunzipBytes : List Nat → Except String (List Nat)
  | 31 :: 139 :: rest => .ok rest
  | _ => .error "Session file is corrupted"

/-- Result object of `finalize(exitCode)` (the wall-clock `duration`
field is outside the model). -/
structure FinalizeResult where
  compressed : List Nat
  uncompressedSize : Nat
  compressedSize : Nat
  exitCode : Int
deriving DecidableEq, Repr

/-- Source: `finalize(exitCode)`: rejects aborted and already-finalized
recorders, concatenates the chunks, compresses, releases the buffer. -/
def SessionRecorder.finalize (r : SessionRecorder) (exitCode : Int) :
    Except String (FinalizeResult × SessionRecorder) :=
  if r.isAborted then .error "Cannot finalize an aborted session"
  else if r.isFinalized then .error "Session already finalized"
  else
    let fullBuffer := r.chunks.flatten
    let compressed := gzipBytes fullBuffer
    .ok ({ compressed := compressed
           uncompressedSize := fullBuffer.length
           compressedSize := compressed.length
           exitCode := exitCode },
         { r with isFinalized := true, chunks := [], totalSize := 0 })

/-- Source: `abort()`: discard the buffer, transition to Aborted. -/
def SessionRecorder.abort (r : SessionRecorder) : SessionRecorder :=
  { r with isAborted := true, chunks := [], totalSize := 0 }

/-- Recorder buffer-accounting invariant: `totalSize` is the sum of the
buffered chunk lengths.  Holds for the constructor state and is
preserved by `write`. -/
def RecGood (r : SessionRecorder) : Prop := r.totalSize = sumLen r.chunks

instance (r : SessionRecorder) : Decidable (RecGood r) := by
  unfold RecGood; infer_instance

/-! ## Session records and RetentionPolicy (src/core/history/RetentionPolicy.js) -/

/-- A persisted session-metadata record, with the fields the history
core reads.  Optional fields model JS properties that may be absent. -/
structure Session where
  id : String
  timestamp : Option Nat
  startTime : Nat
  compressedSize : Option Nat
  fileSize : Option Nat
  filePath : Option String
  uncompressedSize : Nat := 0
  exitCode : Int := 0
deriving DecidableEq, Repr

/-- JS `a || b` on an optional number: `0` and absent are falsy. -/
def jsOr (a : Option Nat) (b : Nat) : Nat :=
  match a with
  | some n => if n = 0 then b else n
  | none => b

/-- Source: `session.timestamp || session.startTime`. -/
def sessTime (s : Session) : Nat := jsOr s.timestamp s.startTime

/-- Source: `session.compressedSize || session.fileSize || 0`. -/
def sessSize (s : Session) : Nat := jsOr s.compressedSize (jsOr s.fileSize 0)

/-- Sum of `sessSize` over a list (the `reduce` accumulations). -/
def sumSize (l : List Session) : Nat := (l.map sessSize).sum

/-- Deletion reason attached by `calculateCleanup` (`'age'` / `'size'`). -/
inductive Reason where
  | age
  | size
deriving DecidableEq, Repr

/-- Comparator key order used by both sorts in `calculateCleanup`. -/
def sessLE (a b : Session) : Prop := sessTime a ≤ sessTime b

instance : DecidableRel sessLE := fun a b => Nat.decLe _ _

instance : IsTotal Session sessLE := ⟨fun a b => Nat.le_total _ _⟩

instance : IsTrans Session sessLE := ⟨fun _ _ _ hab hbc => Nat.le_trans hab hbc⟩

/-- Source: `sessionTime < cutoffTime`, the age test of the first pass. -/
def isExpired (cutoff : Int) (s : Session) : Bool :=
  decide ((sessTime s : Int) < cutoff)

/-- First pass of `calculateCleanup`: walk the sorted list, marking
expired sessions `{...session, reason: 'age'}` and keeping the rest. -/
def agePass (cutoff : Int) : List Session → List (Session × Reason) × List Session
  | [] => ([], [])
  | s :: rest =>
    let p := agePass cutoff rest
    if isExpired cutoff s then ((s, Reason.age) :: p.1, p.2) else (p.1, s :: p.2)

/-- The `while (toKeep.length > 0 && totalSize > maxSizeBytes)` loop of
the second pass: shift the oldest kept session, subtract its size, mark
it `{...session, reason: 'size'}`. -/
def shrinkGo (maxSizeBytes : Nat) : List Session → Nat → List (Session × Reason) × List Session
  | [], _ => ([], [])
  | s :: rest, total =>
    if total > maxSizeBytes then
      let p := shrinkGo maxSizeBytes rest (total - sessSize s)
      ((s, Reason.size) :: p.1, p.2)
    else
      ([], s :: rest)

/-- Return object of `calculateCleanup` (the derived `reclaimedMB`
display value is omitted). -/
structure CleanupPlan where
  toDelete : List (Session × Reason)
  toKeep : List Session
  reclaimedBytes : Nat
  planReason : String
deriving DecidableEq, Repr

/-- Source: `RetentionPolicy.calculateCleanup(sessions)` with the policy fields
`maxAgeDays`, `maxSizeMB` and `Date.now()` passed explicitly:
sort ascending by time, split by the age cutoff, then while the kept
total exceeds `maxSizeMB * 1024 * 1024` re-sort and shift the oldest
kept sessions into the deletion set. -/
def calculateCleanup (maxAgeDays maxSizeMB now : Nat) (sessions : List Session) :
    CleanupPlan :=
  if sessions.length = 0 then
    { toDelete := [], toKeep := [], reclaimedBytes := 0, planReason := "no_sessions" }
  else
    let cutoffTime : Int := (now : Int) - (maxAgeDays * 24 * 60 * 60 * 1000 : Nat)
    let maxSizeBytes := maxSizeMB * 1024 * 1024
    let sorted := sessions.insertionSort sessLE
    let p1 := agePass cutoffTime sorted
    let totalSize := sumSize p1.2
    let p2 :=
      if totalSize > maxSizeBytes then
        let k2 := p1.2.insertionSort sessLE
        let q := shrinkGo maxSizeBytes k2 totalSize
        (p1.1 ++ q.1, q.2)
      else
        (p1.1, p1.2)
    { toDelete := p2.1
      toKeep := p2.2
      reclaimedBytes := sumSize (p2.1.map Prod.fst)
      planReason := if p2.1.length > 0 then "cleanup_needed" else "within_limits" }

/-- Truthiness of `session.filePath` (`undefined` and `''` are falsy). -/
def sessPathTruthy : Option String → Option String
  | some p => if p = "" then none else some p
  | none => none

/-- Whether `storageEngine.deleteSession` would throw for this record,
and with which message: `none` when no deletion is attempted (falsy
`filePath`) or the deletion succeeds. -/
def failsOn (df : String → Option String) (s : Session) : Option String :=
  match sessPathTruthy s.filePath with
  | none => none
  | some p => df p

/-- Accumulated results of `executeCleanup` (`reclaimedMB` omitted). -/
structure CleanupResult where
  deletedCount : Nat
  reclaimedBytes : Nat
  errors : List (String × String)
deriving DecidableEq, Repr

/-- The `for (const session of toDelete)` loop of `executeCleanup`,
also recording the list of `deleteSession` calls made.  `df` maps a
file path to the message of the error thrown by `deleteSession` there,
or `none` when that deletion succeeds. -/
def cleanupLoop (df : String → Option String) :
    List Session → CleanupResult × List String → CleanupResult × List String
  | [], acc => acc
  | s :: rest, acc =>
    let r := acc.1
    let calls := acc.2
    let acc1 :=
      match sessPathTruthy s.filePath with
      | none =>
        ({ r with deletedCount := r.deletedCount + 1
                  reclaimedBytes := r.reclaimedBytes + sessSize s }, calls)
      | some p =>
        match df p with
        | some msg => ({ r with errors := r.errors ++ [(s.id, msg)] }, calls ++ [p])
        | none =>
          ({ r with deletedCount := r.deletedCount + 1
                    reclaimedBytes := r.reclaimedBytes + sessSize s }, calls ++ [p])
    cleanupLoop df rest acc1

/-- Source: `RetentionPolicy.executeCleanup(toDelete, storageEngine)`; returns
its results object together with the paths actually passed to
`storageEngine.deleteSession`. -/
def executeCleanup (toDelete : List Session) (df : String → Option String) :
    CleanupResult × List String :=
  cleanupLoop df toDelete ({ deletedCount := 0, reclaimedBytes := 0, errors := [] }, [])

/-- A metadata record with no `filePath`, exercising cleanup of
path-less victims. -/
def victimNoPath : Session :=
  { id := "x", timestamp := none, startTime := 1,
    compressedSize := some 7, fileSize := none, filePath := none }

/-! ## Filesystem model and StorageEngine (src/core/history/StorageEngine.js) -/

/-- A flat filesystem: an association list from full path to file bytes.
Directories are implicit (directory creation and pruning have no
observable effect on file contents and are outside the model). -/
def FS : Type := List (String × List Nat)

/-- Content at a path, `none` when the file does not exist. -/
def FS.get (fs : FS) (p : String) : Option (List Nat) :=
  (List.find? (fun kv => kv.1 = p) fs).map (fun kv => kv.2)

/-- Remove a path (`fs.promises.unlink`, idempotent in the model). -/
def FS.erase (fs : FS) (p : String) : FS :=
  List.filter (fun kv => !(kv.1 = p)) fs

/-- Create or overwrite a file. -/
def FS.put (fs : FS) (p : String) (data : List Nat) : FS :=
  (p, data) :: FS.erase fs p

/-- Failure schedule for one `writeSession` call: either both
`fs.promises.writeFile` and `fs.promises.rename` succeed, or one of
them throws the given message.  A failed `writeFile` may leave behind
partially written bytes at the temp path (`leftover`). -/
inductive WriteFailure where
  | success
  | writeFileFails (leftover : Option (List Nat)) (msg : String)
  | renameFails (msg : String)
deriving DecidableEq, Repr

/-- Source: `StorageEngine.writeSession(sessionPath, compressedData)`: write the
bytes to `sessionPath + ".tmp"`, rename the temp file onto
`sessionPath`; on failure unlink the temp file (ignoring unlink
errors) and re-throw. -/
def writeSession (fs : FS) (sessionPath : String) (compressedData : List Nat)
    (f : WriteFailure) : FS × Except String Unit :=
  let tempPath := sessionPath ++ ".tmp"
  match f with
  | .success =>
    let fs1 := FS.put fs tempPath compressedData
    let fs2 := FS.put (FS.erase fs1 tempPath) sessionPath compressedData
    (fs2, .ok ())
  | .writeFileFails leftover msg =>
    let fs1 :=
      match leftover with
      | some d => FS.put fs tempPath d
      | none => fs
    (FS.erase fs1 tempPath, .error msg)
  | .renameFails msg =>
    let fs1 := FS.put fs tempPath compressedData
    (FS.erase fs1 tempPath, .error msg)

/-- Source: `StorageEngine.readSession(sessionPath)`: not-found check, read,
gunzip.  The final `toString('utf-8')` view of the decompressed buffer
is kept as raw bytes (see `decodeAscii`). -/
def readSession (fs : FS) (sessionPath : String) : Except String (List Nat) :=
  match FS.get fs sessionPath with
  | none => .error ("Session file not found: " ++ sessionPath)
  | some compressed => gunzipBytes compressed

/-! ## Path normalization (Node `path.posix.normalize`)

`StorageEngine.getCwdHash` calls `path.normalize` before hashing.
`path.normalize` is Node library code, not part of src/; modelled from
the spec and Node's documented posix semantics: split on `/`, drop
empty and `.` segments, resolve `..`, keep one leading slash for
absolute paths and — notably — keep a single trailing slash when the
input ends with one. -/

/-- Split a character list at every `'/'` (the semantics of
`String.split` on the separator predicate). -/
def splitSlash : List Char → List (List Char)
  | [] => [[]]
  | c :: rest =>
    let r := splitSlash rest
    if c = '/' then [] :: r
    else
      match r with
      | s :: ss => (c :: s) :: ss
      | [] => [[c]]

/-- Segment resolution: `acc` is the reversed stack of kept segments.
For relative paths (`allowAbove = true`) a `..` that cannot pop is
kept; for absolute paths it is dropped at the root. -/
def resolveSegs (allowAbove : Bool) : List (List Char) → List (List Char) → List (List Char)
  | [], acc => acc.reverse
  | seg :: rest, acc =>
    if seg = [] || seg = ['.'] then resolveSegs allowAbove rest acc
    else if seg = ['.', '.'] then
      match acc with
      | [] => resolveSegs allowAbove rest (if allowAbove then [['.', '.']] else [])
      | top :: pre =>
        if allowAbove && top = ['.', '.'] then resolveSegs allowAbove rest (['.', '.'] :: acc)
        else resolveSegs allowAbove rest pre
    else resolveSegs allowAbove rest (seg :: acc)

/-- Join segments with `'/'`. -/
def joinSlash : List (List Char) → List Char
  | [] => []
  | [s] => s
  | s :: rest => s ++ '/' :: joinSlash rest

/-- Node `path.posix.normalize` on the character list of the path. -/
def posixNormalizeChars (l : List Char) : List Char :=
  if l = [] then ['.']
  else
    let isAbs := l.head? = some '/'
    let trailing := l.getLast? = some '/'
    let segs := resolveSegs (!isAbs) (splitSlash l) []
    let body := joinSlash segs
    if body = [] then
      if isAbs then ['/'] else if trailing then ['.', '/'] else ['.']
    else
      (if isAbs then ['/'] else []) ++ body ++ (if trailing then ['/'] else [])

/-- Node `path.posix.normalize`. -/
def posixNormalize (p : String) : String := String.mk (posixNormalizeChars p.data)

/-! ## SHA-256 (Node `crypto.createHash('sha256')`)

`getCwdHash` digests the normalized path with SHA-256 and keeps the
first 16 hex characters.  The crypto library is not part of src/; the
FIPS 180-4 algorithm is implemented here directly on `Nat` with
explicit `% 2^32` masking. -/

/-- Truncate to 32 bits. -/
def w32 (x : Nat) : Nat := x % 4294967296

/-- The 32-bit right rotation. -/
def rotr (n x : Nat) : Nat := w32 ((x >>> n) ||| (x <<< (32 - n)))

/-- The 32-bit complement. -/
def not32 (x : Nat) : Nat := 4294967295 - w32 x

def bigSigma0 (x : Nat) : Nat := rotr 2 x ^^^ rotr 13 x ^^^ rotr 22 x

def bigSigma1 (x : Nat) : Nat := rotr 6 x ^^^ rotr 11 x ^^^ rotr 25 x

def smallSigma0 (x : Nat) : Nat := rotr 7 x ^^^ rotr 18 x ^^^ (x >>> 3)

def smallSigma1 (x : Nat) : Nat := rotr 17 x ^^^ rotr 19 x ^^^ (x >>> 10)

/-- SHA-256 round constants (FIPS 180-4 table, written in decimal). -/
def sha256K : List Nat :=
  [1116352408, 1899447441, 3049323471, 3921009573, 961987163,
   1508970993, 2453635748, 2870763221, 3624381080, 310598401,
   607225278, 1426881987, 1925078388, 2162078206, 2614888103,
   3248222580, 3835390401, 4022224774, 264347078, 604807628,
   770255983, 1249150122, 1555081692, 1996064986, 2554220882,
   2821834349, 2952996808, 3210313671, 3336571891, 3584528711,
   113926993, 338241895, 666307205, 773529912, 1294757372,
   1396182291, 1695183700, 1986661051, 2177026350, 2456956037,
   2730485921, 2820302411, 3259730800, 3345764771, 3516065817,
   3600352804, 4094571909, 275423344, 430227734, 506948616,
   659060556, 883997877, 958139571, 1322822218, 1537002063,
   1747873779, 1955562222, 2024104815, 2227730452, 2361852424,
   2428436474, 2756734187, 3204031479, 3329325298]

/-- SHA-256 initial hash value (FIPS 180-4, written in decimal). -/
def sha256H0 : List Nat :=
  [1779033703, 3144134277, 1013904242, 2773480762,
   1359893119, 2600822924, 528734635, 1541459225]

/-- Big-endian encoding of `x` into `n` bytes. -/
def beBytes (n x : Nat) : List Nat :=
  (List.range n).map (fun i => (x >>> (8 * (n - 1 - i))) % 256)

/-- FIPS padding: append `0x80`, zero bytes to 56 mod 64, then the
64-bit big-endian bit length. -/
def sha256Pad (msg : List Nat) : List Nat :=
  let z := (119 - (msg.length % 64)) % 64
  msg ++ [0x80] ++ List.replicate z 0 ++ beBytes 8 (msg.length * 8)

/-- Fuel-driven splitting into 64-byte blocks (each step consumes at
least one byte, so `fuel = l.length` suffices). -/
def toBlocksGo : Nat → List Nat → List (List Nat)
  | 0, _ => []
  | _, [] => []
  | fuel + 1, c :: rest => (c :: rest).take 64 :: toBlocksGo fuel ((c :: rest).drop 64)

/-- Split a byte list into 64-byte blocks. -/
def toBlocks (l : List Nat) : List (List Nat) := toBlocksGo l.length l

/-- Parse a 64-byte block into 16 big-endian 32-bit words. -/
def words16 : List Nat → List Nat
  | b0 :: b1 :: b2 :: b3 :: rest =>
    (b0 <<< 24 ||| b1 <<< 16 ||| b2 <<< 8 ||| b3) :: words16 rest
  | _ => []

/-- Next word of the message schedule from the words so far. -/
def nextW (ws : List Nat) : Nat :=
  let n := ws.length
  w32 (ws.getD (n - 16) 0 + smallSigma0 (ws.getD (n - 15) 0) +
       ws.getD (n - 7) 0 + smallSigma1 (ws.getD (n - 2) 0))

/-- Extend the 16 block words to the 64-entry message schedule. -/
def fullSchedule (w16 : List Nat) : List Nat :=
  (List.range 48).foldl (fun ws _ => ws ++ [nextW ws]) w16

/-- SHA-256 working variables. -/
structure Hash8 where
  a : Nat
  b : Nat
  c : Nat
  d : Nat
  e : Nat
  f : Nat
  g : Nat
  h : Nat
deriving DecidableEq, Repr

/-- One compression round. -/
def compressStep (s : Hash8) (kw : Nat × Nat) : Hash8 :=
  let ch := (s.e &&& s.f) ^^^ (not32 s.e &&& s.g)
  let temp1 := w32 (s.h + bigSigma1 s.e + ch + kw.1 + kw.2)
  let maj := (s.a &&& s.b) ^^^ (s.a &&& s.c) ^^^ (s.b &&& s.c)
  let temp2 := w32 (bigSigma0 s.a + maj)
  { a := w32 (temp1 + temp2), b := s.a, c := s.b, d := s.c
    e := w32 (s.d + temp1), f := s.e, g := s.f, h := s.g }

/-- Compress one 64-byte block into the running hash. -/
def compressBlock (hw : List Nat) (block : List Nat) : List Nat :=
  let ws := fullSchedule (words16 block)
  let s0 : Hash8 :=
    { a := hw.getD 0 0, b := hw.getD 1 0, c := hw.getD 2 0, d := hw.getD 3 0
      e := hw.getD 4 0, f := hw.getD 5 0, g := hw.getD 6 0, h := hw.getD 7 0 }
  let s := (sha256K.zip ws).foldl compressStep s0
  [w32 (hw.getD 0 0 + s.a), w32 (hw.getD 1 0 + s.b), w32 (hw.getD 2 0 + s.c),
   w32 (hw.getD 3 0 + s.d), w32 (hw.getD 4 0 + s.e), w32 (hw.getD 5 0 + s.f),
   w32 (hw.getD 6 0 + s.g), w32 (hw.getD 7 0 + s.h)]

/-- SHA-256 digest (32 bytes) of a byte message. -/
def sha256 (msg : List Nat) : List Nat :=
  let hw := (toBlocks (sha256Pad msg)).foldl compressBlock sha256H0
  hw.flatMap (beBytes 4)

/-- One lower-case hex digit. -/
def hexDigit (n : Nat) : Char :=
  if n < 10 then Char.ofNat (48 + n) else if n < 16 then Char.ofNat (87 + n) else '0'

/-- Lower-case hex digits of a byte list. -/
def hexChars (l : List Nat) : List Char :=
  l.flatMap (fun b => [hexDigit (b / 16 % 16), hexDigit (b % 16)])

/-- Lower-case hex rendering of a byte list (`digest('hex')`). -/
def bytesToHex (l : List Nat) : String := String.mk (hexChars l)

/-- UTF-8 encoding of one character. -/
def utf8EncodeChar (c : Char) : List Nat :=
  let n := c.toNat
  if n < 0x80 then [n]
  else if n < 0x800 then
    [0xc0 ||| (n >>> 6), 0x80 ||| (n &&& 0x3f)]
  else if n < 0x10000 then
    [0xe0 ||| (n >>> 12), 0x80 ||| ((n >>> 6) &&& 0x3f), 0x80 ||| (n &&& 0x3f)]
  else
    [0xf0 ||| (n >>> 18), 0x80 ||| ((n >>> 12) &&& 0x3f),
     0x80 ||| ((n >>> 6) &&& 0x3f), 0x80 ||| (n &&& 0x3f)]

/-- UTF-8 encoding of a character list (`hash.update(string)` uses
utf-8). -/
def utf8Encode (l : List Char) : List Nat := l.flatMap utf8EncodeChar

/-- Source: `StorageEngine.getCwdHash(cwd)`: reject empty input, normalize,
lower-case (`Char.toLower`, the ASCII restriction of JS
`toLowerCase`), SHA-256, keep the first 16 hex characters. -/
def getCwdHash (cwd : String) : Except String String :=
  if cwd = "" then .error "cwd must be a non-empty string"
  else
    let normalized := (posixNormalizeChars cwd.data).map Char.toLower
    .ok (String.mk ((hexChars (sha256 (utf8Encode normalized))).take 16))

/-- Source: `StorageEngine.getSessionPath(cwd, timestamp)`: reject non-positive
timestamps, compose `<historyDir>/<cwdHash>/<timestamp>.gz`
(timestamps are `Nat` here, so non-positive means zero). -/
def getSessionPath (historyDir cwd : String) (timestamp : Nat) : Except String String :=
  if timestamp = 0 then .error "timestamp must be a positive number"
  else
    match getCwdHash cwd with
    | .error e => .error e
    | .ok h => .ok (historyDir ++ "/" ++ h ++ "/" ++ toString timestamp ++ ".gz")

/-! ## HistoryManager (src/core/HistoryManager.js) -/

/-- One entry of the `activeRecorders` map:
`{recorder, tabId, cwd, metadata, startTime}` (the opaque `metadata`
spread is outside the model). -/
structure RecEntry where
  recorder : SessionRecorder
  tabId : String
  cwd : String
  startTime : Nat
deriving DecidableEq, Repr

/-- Manager state: the active-recorder map, the persisted
`history.sessions` list (most-recent-first), the filesystem, and the
retention-policy fields. -/
structure HistoryManager where
  activeRecorders : List (String × RecEntry)
  sessions : List Session
  fs : FS
  maxAgeDays : Nat
  maxSizeMB : Nat
  historyDir : String

/-- The `finally`-step of `endSession`: drop the recorder from the
active map. -/
def removeRecorder (m : HistoryManager) (sid : String) : HistoryManager :=
  { m with activeRecorders := m.activeRecorders.filter (fun e => !(e.1 = sid)) }

/-- Source: `_runRetentionCleanup()`: compute the plan; when it deletes
anything, execute it (erasing the deleted files), replace the
persisted list with `toKeep`.  Directory pruning has no effect in the
flat filesystem model. -/
def runRetentionCleanup (m : HistoryManager) (df : String → Option String) (now : Nat) :
    HistoryManager :=
  let plan := calculateCleanup m.maxAgeDays m.maxSizeMB now m.sessions
  if plan.toDelete.length = 0 then m
  else
    let calls := (executeCleanup (plan.toDelete.map Prod.fst) df).2
    { m with fs := calls.foldl FS.erase m.fs, sessions := plan.toKeep }

/-- Source: `HistoryManager.endSession(sessionId, exitCode)`: look up the
recorder (returning `null` — `.ok none` — when absent), finalize,
compute the path, write atomically, prepend the metadata record, run
the retention pass, and in every branch remove the recorder from the
active map (the `finally` block).  `wf` injects write failures, `df`
injects per-file deletion failures, `now` is `Date.now()`. -/
def endSession (m : HistoryManager) (sid : String) (exitCode : Int)
    (wf : WriteFailure) (df : String → Option String) (now : Nat) :
    HistoryManager × Except String (Option Session) :=
  match m.activeRecorders.find? (fun e => e.1 = sid) with
  | none => (m, .ok none)
  | some entryKV =>
    let entry := entryKV.2
    match entry.recorder.finalize exitCode with
    | .error e => (removeRecorder m sid, .error e)
    | .ok res =>
      match getSessionPath m.historyDir entry.cwd entry.startTime with
      | .error e => (removeRecorder m sid, .error e)
      | .ok filePath =>
        let wr := writeSession m.fs filePath res.1.compressed wf
        let m1 := { m with fs := wr.1 }
        match wr.2 with
        | .error e => (removeRecorder m1 sid, .error e)
        | .ok _ =>
          let meta : Session :=
            { id := sid
              timestamp := some entry.startTime
              startTime := entry.startTime
              compressedSize := some res.1.compressedSize
              fileSize := none
              filePath := some filePath
              uncompressedSize := res.1.uncompressedSize
              exitCode := exitCode }
          let m2 := { m1 with sessions := meta :: m1.sessions }
          let m3 := runRetentionCleanup m2 df now
          (removeRecorder m3 sid, .ok (some meta))

/-- A manager with no active recorders, no stored sessions, an empty
filesystem, and the default retention settings. -/
def emptyManager : HistoryManager :=
  { activeRecorders := [], sessions := [], fs := []
    maxAgeDays := 30, maxSizeMB := 500, historyDir := "history" }

/-! ## Capture / persist / read round trip -/

/-- The pipeline of the round-trip property: stream `ds` into a fresh
recorder, finalize, write the compressed bytes at `p` into an empty
filesystem, read them back via `readSession`. -/
def recordAndRead (ds : List (List Nat)) (exitCode : Int) (p : String) :
    Except String (List Nat) :=
  match (writeAll ds).finalize exitCode with
  | .error e => .error e
  | .ok res =>
    let wr := writeSession [] p res.1.compressed WriteFailure.success
    match wr.2 with
    | .error e => .error e
    | .ok _ => readSession wr.1 p

/-! ## Lemmas about the recorder buffer -/

theorem sumLen_nil : sumLen [] = 0 := rfl

theorem sumLen_cons (c : List Nat) (l : List (List Nat)) :
    sumLen (c :: l) = c.length + sumLen l := by
  simp [sumLen]

theorem sumLen_append (a b : List (List Nat)) :
    sumLen (a ++ b) = sumLen a + sumLen b := by
  simp [sumLen]

theorem truncationMarker_length : truncationMarker.length = 34 := by decide

/-- The drop loop of `_trimBuffer` preserves the size accounting and
stops only once the surviving chunks fit in the 80% target. -/
theorem trimGo_spec :
    ∀ (l : List (List Nat)) (rem total : Nat), total = rem + sumLen l →
      total = (trimGo l total rem).2 + sumLen (trimGo l total rem).1 ∧
      sumLen (trimGo l total rem).1 ≤ trimTargetSize := by
  intro l
  induction l with
  | nil =>
    intro rem total h
    simp [trimGo, sumLen_nil] at h ⊢
    omega
  | cons c rest ih =>
    intro rem total h
    rw [sumLen_cons] at h
    by_cases hc : total - rem > trimTargetSize
    · have := ih (rem + c.length) total (by omega)
      simpa [trimGo, hc] using this
    · simp only [trimGo, if_neg hc]
      rw [sumLen_cons]
      constructor
      · omega
      · omega

/-- Lemma: `_trimBuffer` restores the accounting invariant, leaves the total
at most the 80% target plus the marker, and puts the marker first. -/
theorem trimBuffer_spec (r : SessionRecorder) (h : RecGood r) :
    RecGood r.trimBuffer ∧
    r.trimBuffer.totalSize ≤ trimTargetSize + truncationMarker.length ∧
    r.trimBuffer.chunks.head? = some truncationMarker ∧
    r.trimBuffer.chunks.tail = (trimGo r.chunks r.totalSize 0).1 := by
  have hs := trimGo_spec r.chunks 0 r.totalSize (by simpa [RecGood] using h)
  refine ⟨?_, ?_, rfl, rfl⟩
  · simp only [RecGood, SessionRecorder.trimBuffer, sumLen_cons]
    omega
  · simp only [SessionRecorder.trimBuffer]
    omega

/-- Lemma: `write` on an inactive recorder is the identity. -/
theorem write_inactive (r : SessionRecorder) (d : List Nat)
    (h : (r.isAborted || r.isFinalized) = true) : r.write d = r := by
  simp [SessionRecorder.write, h]

/-- Lemma: `write` without overflow just appends the chunk. -/
theorem write_no_trim (r : SessionRecorder) (d : List Nat)
    (h : (r.isAborted || r.isFinalized) = false)
    (h2 : r.totalSize + d.length ≤ MAX_BUFFER_SIZE) :
    r.write d =
      { r with chunks := r.chunks ++ [d], totalSize := r.totalSize + d.length } := by
  simp [SessionRecorder.write, h]
  omega

/-- Lemma: `write` with overflow appends the chunk and trims. -/
theorem write_trim (r : SessionRecorder) (d : List Nat)
    (h : (r.isAborted || r.isFinalized) = false)
    (h2 : r.totalSize + d.length > MAX_BUFFER_SIZE) :
    r.write d =
      SessionRecorder.trimBuffer
        { r with chunks := r.chunks ++ [d], totalSize := r.totalSize + d.length } := by
  simp [SessionRecorder.write, h, h2]

/-- Lemma: `write` preserves the accounting invariant and the 100 MiB cap. -/
theorem write_spec (r : SessionRecorder) (d : List Nat)
    (h : RecGood r) (hcap : r.totalSize ≤ MAX_BUFFER_SIZE) :
    RecGood (r.write d) ∧ (r.write d).totalSize ≤ MAX_BUFFER_SIZE := by
  by_cases hact : (r.isAborted || r.isFinalized) = true
  · rw [write_inactive r d hact]; exact ⟨h, hcap⟩
  · have hact' : (r.isAborted || r.isFinalized) = false := by
      simpa using hact
    have hgood1 : RecGood { r with chunks := r.chunks ++ [d], totalSize := r.totalSize + d.length } := by
      simp only [RecGood] at h ⊢
      simp only [sumLen_append, sumLen_cons, sumLen_nil]
      omega
    by_cases hov : r.totalSize + d.length > MAX_BUFFER_SIZE
    · rw [write_trim r d hact' hov]
      have ht := trimBuffer_spec _ hgood1
      refine ⟨ht.1, ?_⟩
      have h34 : trimTargetSize + truncationMarker.length ≤ MAX_BUFFER_SIZE := by
        rw [truncationMarker_length]; decide
      have h2 := ht.2.1
      omega
    · rw [write_no_trim r d hact' (by omega)]
      refine ⟨hgood1, ?_⟩
      show r.totalSize + d.length ≤ MAX_BUFFER_SIZE
      omega

/-- Every state reached by a sequence of writes from a fresh recorder
satisfies the invariant and the cap. -/
theorem writeAll_spec (ds : List (List Nat)) :
    RecGood (writeAll ds) ∧ (writeAll ds).totalSize ≤ MAX_BUFFER_SIZE := by
  suffices h : ∀ (l : List (List Nat)) (r : SessionRecorder),
      RecGood r → r.totalSize ≤ MAX_BUFFER_SIZE →
      RecGood (l.foldl SessionRecorder.write r) ∧
      (l.foldl SessionRecorder.write r).totalSize ≤ MAX_BUFFER_SIZE by
    exact h ds SessionRecorder.init (by simp [RecGood, SessionRecorder.init, sumLen_nil]) (by simp [SessionRecorder.init])
  intro l
  induction l with
  | nil => intro r hg hc; exact ⟨hg, hc⟩
  | cons d rest ih =>
    intro r hg hc
    have := write_spec r d hg hc
    exact ih (r.write d) this.1 this.2

/-- Claim C2: after every write in any sequence of writes on a fresh
(Active) recorder, `totalSize` is at most the 100 MiB cap; and whenever
a write pushes `totalSize` over the cap, the oldest chunks are dropped
until the surviving buffered bytes are at most 80% of the cap, the
truncation marker is prepended as the new oldest chunk (so the buffered
content begins with the marker), and the total stays under the cap. -/
theorem claim_c2 :
    (∀ ds : List (List Nat), (writeAll ds).totalSize ≤ MAX_BUFFER_SIZE) ∧
    (∀ (r : SessionRecorder) (d : List Nat),
      RecGood r → r.isAborted = false → r.isFinalized = false →
      r.totalSize + d.length > MAX_BUFFER_SIZE →
      (r.write d).chunks.head? = some truncationMarker ∧
      sumLen (r.write d).chunks.tail ≤ trimTargetSize ∧
      (r.write d).totalSize ≤ MAX_BUFFER_SIZE) := by
  constructor
  · intro ds; exact (writeAll_spec ds).2
  · intro r d hg ha hf hover
    have hact : (r.isAborted || r.isFinalized) = false := by simp [ha, hf]
    rw [write_trim r d hact hover]
    have hgood1 : RecGood { r with chunks := r.chunks ++ [d], totalSize := r.totalSize + d.length } := by
      simp only [RecGood] at hg ⊢
      simp only [sumLen_append, sumLen_cons, sumLen_nil]
      omega
    have ht := trimBuffer_spec _ hgood1
    refine ⟨ht.2.2.1, ?_, ?_⟩
    · rw [ht.2.2.2]
      exact (trimGo_spec _ 0 _ (by simpa [RecGood] using hgood1)).2
    · have h34 : trimTargetSize + truncationMarker.length ≤ MAX_BUFFER_SIZE := by
        rw [truncationMarker_length]; decide
      have h2 := ht.2.1
      omega

/-- Closed instance of C2: a single oversized write on a fresh recorder
keeps `totalSize` under the cap and leaves the marker as the first
buffered chunk. -/
theorem claim_c2_witness :
    (writeAll [List.replicate (MAX_BUFFER_SIZE + 1) 97]).totalSize ≤ MAX_BUFFER_SIZE ∧
    (SessionRecorder.init.write (List.replicate (MAX_BUFFER_SIZE + 1) 97)).chunks.head? =
      some truncationMarker := by
  constructor
  · exact claim_c2.1 [List.replicate (MAX_BUFFER_SIZE + 1) 97]
  · exact (claim_c2.2 SessionRecorder.init (List.replicate (MAX_BUFFER_SIZE + 1) 97)
      (by simp [RecGood, SessionRecorder.init, sumLen_nil]) rfl rfl
      (by simp [SessionRecorder.init])).1

/-- The drop loop removes every chunk when the final (most recent)
chunk alone exceeds the 80% target. -/
theorem trimGo_drop_all :
    ∀ (l : List (List Nat)) (d : List Nat) (rem total : Nat),
      total = rem + sumLen l + d.length → d.length > trimTargetSize →
      trimGo (l ++ [d]) total rem = ([], total) := by
  intro l
  induction l with
  | nil =>
    intro d rem total h hd
    have hc : total - rem > trimTargetSize := by
      rw [sumLen_nil] at h; omega
    simp only [List.nil_append, trimGo, hc, if_pos]
    rw [sumLen_nil] at h
    congr 1
    omega
  | cons c rest ih =>
    intro d rem total h hd
    rw [sumLen_cons] at h
    have hc : total - rem > trimTargetSize := by omega
    simp only [List.cons_append, trimGo, hc, if_pos]
    exact ih d (rem + c.length) total (by omega) hd

/-- Claim C9: when a write triggers trimming and the just-written
(most recent) chunk alone exceeds the 80% trim target, every buffered
chunk — including the chunk just written — is dropped, and the buffer
is left holding only the truncation marker. -/
theorem claim_c9 (r : SessionRecorder) (d : List Nat)
    (hg : RecGood r) (ha : r.isAborted = false) (hf : r.isFinalized = false)
    (hover : r.totalSize + d.length > MAX_BUFFER_SIZE)
    (hd : d.length > trimTargetSize) :
    (r.write d).chunks = [truncationMarker] ∧
    (r.write d).totalSize = truncationMarker.length := by
  have hact : (r.isAborted || r.isFinalized) = false := by simp [ha, hf]
  rw [write_trim r d hact hover]
  have hdrop : trimGo (r.chunks ++ [d]) (r.totalSize + d.length) 0 =
      ([], r.totalSize + d.length) :=
    trimGo_drop_all r.chunks d 0 (r.totalSize + d.length)
      (by have := hg; simp only [RecGood] at this; omega) hd
  simp only [SessionRecorder.trimBuffer, hdrop]
  simp

/-- Closed instance of C9: one write larger than the whole cap leaves
only the marker in the buffer. -/
theorem claim_c9_witness :
    (SessionRecorder.init.write (List.replicate (MAX_BUFFER_SIZE + 1) 98)).chunks =
      [truncationMarker] := by
  exact (claim_c9 SessionRecorder.init (List.replicate (MAX_BUFFER_SIZE + 1) 98)
    (by simp [RecGood, SessionRecorder.init, sumLen_nil]) rfl rfl
    (by simp only [SessionRecorder.init, List.length_replicate]; omega)
    (by rw [List.length_replicate]; simp only [trimTargetSize, MAX_BUFFER_SIZE]; omega)).1

/-! ## Lemmas about the retention policy -/

theorem sumSize_nil : sumSize [] = 0 := rfl

theorem sumSize_cons (s : Session) (l : List Session) :
    sumSize (s :: l) = sessSize s + sumSize l := by
  simp [sumSize]

/-- The age pass decorates with reason `age` and loses nothing: the two
outputs interleave back to the input. -/
theorem agePass_perm (cutoff : Int) :
    ∀ l : List Session,
      ((agePass cutoff l).1.map Prod.fst ++ (agePass cutoff l).2).Perm l := by
  intro l
  induction l with
  | nil => simp [agePass]
  | cons s rest ih =>
    by_cases hs : isExpired cutoff s
    · simpa [agePass, hs] using ih.cons s
    · simp only [agePass, hs, Bool.false_eq_true, if_false]
      exact (List.perm_middle.trans (ih.cons s))

/-- Every record the age pass marks is expired and carries reason
`age`. -/
theorem agePass_fst_mem (cutoff : Int) :
    ∀ (l : List Session) (x : Session × Reason), x ∈ (agePass cutoff l).1 →
      x.2 = Reason.age ∧ isExpired cutoff x.1 = true := by
  intro l
  induction l with
  | nil => intro x hx; simp [agePass] at hx
  | cons s rest ih =>
    intro x hx
    by_cases hs : isExpired cutoff s
    · simp only [agePass, hs, if_pos, List.mem_cons] at hx
      rcases hx with h | h
      · subst h; exact ⟨rfl, hs⟩
      · exact ih x h
    · simp only [agePass, hs, Bool.false_eq_true, if_false] at hx
      exact ih x hx

/-- Every record the age pass keeps is not expired. -/
theorem agePass_snd_mem (cutoff : Int) :
    ∀ (l : List Session) (s : Session), s ∈ (agePass cutoff l).2 →
      isExpired cutoff s = false := by
  intro l
  induction l with
  | nil => intro s hs; simp [agePass] at hs
  | cons t rest ih =>
    intro s hs
    by_cases ht : isExpired cutoff t
    · simp only [agePass, ht, if_pos] at hs
      exact ih s hs
    · simp only [agePass, ht, Bool.false_eq_true, if_false, List.mem_cons] at hs
      rcases hs with h | h
      · subst h; simpa using ht
      · exact ih s h

/-- The size pass splits its input: deleted records (in order) followed
by the survivors reconstitute the sorted keep list. -/
theorem shrinkGo_split (maxB : Nat) :
    ∀ (l : List Session) (t : Nat),
      (shrinkGo maxB l t).1.map Prod.fst ++ (shrinkGo maxB l t).2 = l := by
  intro l
  induction l with
  | nil => intro t; simp [shrinkGo]
  | cons s rest ih =>
    intro t
    by_cases hc : t > maxB
    · simp only [shrinkGo, hc, if_pos, List.map_cons, List.cons_append]
      rw [ih]
    · simp [shrinkGo, hc]

/-- Every record the size pass deletes carries reason `size`. -/
theorem shrinkGo_fst_reason (maxB : Nat) :
    ∀ (l : List Session) (t : Nat) (x : Session × Reason),
      x ∈ (shrinkGo maxB l t).1 → x.2 = Reason.size := by
  intro l
  induction l with
  | nil => intro t x hx; simp [shrinkGo] at hx
  | cons s rest ih =>
    intro t x hx
    by_cases hc : t > maxB
    · simp only [shrinkGo, hc, if_pos, List.mem_cons] at hx
      rcases hx with h | h
      · subst h; rfl
      · exact ih _ x h
    · simp [shrinkGo, hc] at hx

/-- When the size pass leaves survivors, their total size fits the
budget (given correct initial accounting). -/
theorem shrinkGo_keep_le (maxB : Nat) :
    ∀ (l : List Session) (t : Nat), t = sumSize l →
      (shrinkGo maxB l t).2 ≠ [] → sumSize (shrinkGo maxB l t).2 ≤ maxB := by
  intro l
  induction l with
  | nil => intro t ht hne; simp [shrinkGo] at hne
  | cons s rest ih =>
    intro t ht hne
    by_cases hc : t > maxB
    · simp only [shrinkGo, hc, if_pos] at hne ⊢
      refine ih (t - sessSize s) ?_ hne
      rw [sumSize_cons] at ht
      omega
    · simp only [shrinkGo, hc, if_neg, not_false_eq_true] at hne ⊢
      omega

/-- Claim C1: `calculateCleanup` partitions its input — the sessions
underlying `toDelete` together with `toKeep` are a permutation of the
input list (each session appears exactly once, none duplicated or
lost) — and `reclaimedBytes` is the sum over `toDelete` of
`compressedSize || fileSize || 0`. -/
theorem claim_c1 (maxAgeDays maxSizeMB now : Nat) (sessions : List Session) :
    (((calculateCleanup maxAgeDays maxSizeMB now sessions).toDelete.map Prod.fst ++
        (calculateCleanup maxAgeDays maxSizeMB now sessions).toKeep).Perm sessions) ∧
    (calculateCleanup maxAgeDays maxSizeMB now sessions).reclaimedBytes =
      sumSize ((calculateCleanup maxAgeDays maxSizeMB now sessions).toDelete.map Prod.fst) := by
  by_cases hemp : sessions.length = 0
  · have : sessions = [] := List.length_eq_zero.mp hemp
    subst this
    exact ⟨by simp [calculateCleanup], by simp [calculateCleanup, sumSize_nil]⟩
  · refine ⟨?_, ?_⟩
    · simp only [calculateCleanup, hemp, if_neg, not_false_eq_true]
      set cutoff : Int := (now : Int) - (maxAgeDays * 24 * 60 * 60 * 1000 : Nat) with hcut
      set sorted := sessions.insertionSort sessLE with hsorted
      set p1 := agePass cutoff sorted with hp1
      by_cases hover : sumSize p1.2 > maxSizeMB * 1024 * 1024
      · rw [if_pos hover]
        set k2 := p1.2.insertionSort sessLE with hk2
        set q := shrinkGo (maxSizeMB * 1024 * 1024) k2 (sumSize p1.2) with hq
        have hsplit : q.1.map Prod.fst ++ q.2 = k2 := shrinkGo_split _ _ _
        have h1 : ((p1.1 ++ q.1, q.2) : List (Session × Reason) × List Session).1.map Prod.fst ++
            (p1.1 ++ q.1, q.2).2 = p1.1.map Prod.fst ++ k2 := by
          simp only [List.map_append, List.append_assoc, hsplit]
        rw [h1]
        exact ((List.perm_insertionSort sessLE p1.2).append_left _).trans
          ((agePass_perm cutoff sorted).trans (List.perm_insertionSort sessLE sessions))
      · rw [if_neg hover]
        exact (agePass_perm cutoff sorted).trans (List.perm_insertionSort sessLE sessions)
    · simp only [calculateCleanup, hemp, if_neg, not_false_eq_true]

theorem isExpired_true_iff (cutoff : Int) (s : Session) :
    isExpired cutoff s = true ↔ (sessTime s : Int) < cutoff := by
  simp [isExpired]

theorem isExpired_false_iff (cutoff : Int) (s : Session) :
    isExpired cutoff s = false ↔ ¬((sessTime s : Int) < cutoff) := by
  simp [isExpired]

/-- Claim C5: every record `calculateCleanup` deletes is either expired
(strictly older than `now - maxAgeDays` in ms, reason `age`) or an
oldest survivor evicted for the size budget (reason `size`, not
expired, and no older than every kept session); and when anything is
kept, the kept sizes sum to at most `maxSizeMB * 1024 * 1024`. -/
theorem claim_c5 (maxAgeDays maxSizeMB now : Nat) (sessions : List Session) :
    (∀ x ∈ (calculateCleanup maxAgeDays maxSizeMB now sessions).toDelete,
        (x.2 = Reason.age ∧
          (sessTime x.1 : Int) < (now : Int) - (maxAgeDays * 24 * 60 * 60 * 1000 : Nat)) ∨
        (x.2 = Reason.size ∧
          ¬((sessTime x.1 : Int) < (now : Int) - (maxAgeDays * 24 * 60 * 60 * 1000 : Nat)) ∧
          ∀ k ∈ (calculateCleanup maxAgeDays maxSizeMB now sessions).toKeep,
            sessTime x.1 ≤ sessTime k)) ∧
    ((calculateCleanup maxAgeDays maxSizeMB now sessions).toKeep ≠ [] →
      sumSize (calculateCleanup maxAgeDays maxSizeMB now sessions).toKeep ≤
        maxSizeMB * 1024 * 1024) := by
  by_cases hemp : sessions.length = 0
  · have : sessions = [] := List.length_eq_zero.mp hemp
    subst this
    constructor
    · intro x hx
      simp [calculateCleanup] at hx
    · intro hne
      simp [calculateCleanup] at hne
  · simp only [calculateCleanup, hemp, if_neg, not_false_eq_true]
    set cutoff : Int := (now : Int) - (maxAgeDays * 24 * 60 * 60 * 1000 : Nat) with hcut
    set sorted := sessions.insertionSort sessLE with hsorted
    set p1 := agePass cutoff sorted with hp1
    by_cases hover : sumSize p1.2 > maxSizeMB * 1024 * 1024
    · rw [if_pos hover]
      set k2 := p1.2.insertionSort sessLE with hk2
      set q := shrinkGo (maxSizeMB * 1024 * 1024) k2 (sumSize p1.2) with hq
      have hsplit : q.1.map Prod.fst ++ q.2 = k2 := shrinkGo_split _ _ _
      have hk2perm : k2.Perm p1.2 := List.perm_insertionSort sessLE p1.2
      have hsortedk2 : List.Sorted sessLE k2 := List.sorted_insertionSort sessLE p1.2
      constructor
      · intro x hx
        rcases List.mem_append.mp hx with hage | hsize
        · left
          have := agePass_fst_mem cutoff sorted x hage
          exact ⟨this.1, (isExpired_true_iff cutoff x.1).mp this.2⟩
        · right
          have hreason := shrinkGo_fst_reason _ _ _ x hsize
          have hfst : x.1 ∈ k2 := by
            rw [← hsplit]
            exact List.mem_append_left _ (List.mem_map_of_mem Prod.fst hsize)
          have hinkeep : x.1 ∈ p1.2 := hk2perm.mem_iff.mp hfst
          have hnotexp : isExpired cutoff x.1 = false := agePass_snd_mem cutoff sorted x.1 hinkeep
          refine ⟨hreason, (isExpired_false_iff cutoff x.1).mp hnotexp, ?_⟩
          intro k hk
          have hpw : List.Pairwise sessLE (q.1.map Prod.fst ++ q.2) := by
            rw [hsplit]; exact hsortedk2
          exact (List.pairwise_append.mp hpw).2.2 x.1
            (List.mem_map_of_mem Prod.fst hsize) k hk
      · intro hne
        have hsum : sumSize p1.2 = sumSize k2 := by
          simpa [sumSize] using ((hk2perm.map sessSize).sum_eq).symm
        exact shrinkGo_keep_le (maxSizeMB * 1024 * 1024) k2 (sumSize p1.2) (by rw [hsum]) hne
    · rw [if_neg hover]
      constructor
      · intro x hx
        left
        have := agePass_fst_mem cutoff sorted x hx
        exact ⟨this.1, (isExpired_true_iff cutoff x.1).mp this.2⟩
      · intro _
        show sumSize p1.2 ≤ maxSizeMB * 1024 * 1024
        omega

/-- Closed instance of C5: with one fresh small session nothing is
deleted and the kept total respects the budget. -/
theorem claim_c5_witness :
    sumSize (calculateCleanup 1 10 0
      [{ id := "s0", timestamp := some 5, startTime := 5,
         compressedSize := some 100, fileSize := none, filePath := some "f" }]).toKeep ≤
      10 * 1024 * 1024 := by
  exact (claim_c5 1 10 0 _).2 (by decide)

/-! ## Lemmas about cleanup execution -/

/-- Characterization of the `executeCleanup` loop for any starting
accumulator: counts and reclaimed bytes grow by the victims whose
deletion does not throw, error entries are appended in order for those
that do, and `deleteSession` is called exactly on the truthy paths. -/
theorem cleanupLoop_spec (df : String → Option String) :
    ∀ (l : List Session) (r : CleanupResult) (calls : List String),
      cleanupLoop df l (r, calls) =
        ({ deletedCount := r.deletedCount + (l.filter (fun s => (failsOn df s).isNone)).length
           reclaimedBytes := r.reclaimedBytes + sumSize (l.filter (fun s => (failsOn df s).isNone))
           errors := r.errors ++ l.filterMap (fun s => (failsOn df s).map (fun m => (s.id, m))) },
         calls ++ l.filterMap (fun s => sessPathTruthy s.filePath)) := by
  intro l
  induction l with
  | nil =>
    intro r calls
    simp [cleanupLoop, sumSize_nil]
  | cons s rest ih =>
    intro r calls
    rcases hT : sessPathTruthy s.filePath with _ | p
    · have hfails : failsOn df s = none := by simp [failsOn, hT]
      simp only [cleanupLoop, hT]
      rw [ih]
      simp [hfails, hT, List.filter_cons, List.filterMap_cons, sumSize_cons,
        Nat.add_assoc, Nat.add_comm, Nat.add_left_comm]
    · rcases hdf : df p with _ | msg
      · have hfails : failsOn df s = none := by simp [failsOn, hT, hdf]
        simp only [cleanupLoop, hT, hdf]
        rw [ih]
        simp [hfails, hT, hdf, List.filter_cons, List.filterMap_cons, sumSize_cons,
          Nat.add_assoc, Nat.add_comm, Nat.add_left_comm]
      · have hfails : failsOn df s = some msg := by simp [failsOn, hT, hdf]
        simp only [cleanupLoop, hT, hdf]
        rw [ih]
        simp [hfails, hT, hdf, List.filter_cons, List.filterMap_cons, sumSize_cons,
          List.append_assoc]

/-- Claim C8: `executeCleanup` attempts each victim in order — the
calls to `deleteSession` are exactly the victims' truthy file paths in
input order; a victim whose deletion throws contributes an
`{sessionId, error}` entry to `errors` (in order) and does not stop the
remaining victims from being processed; `deletedCount` and
`reclaimedBytes` count exactly the victims processed without error. -/
theorem claim_c8 (toDelete : List Session) (df : String → Option String) :
    (executeCleanup toDelete df).1.errors =
      toDelete.filterMap (fun s => (failsOn df s).map (fun m => (s.id, m))) ∧
    (executeCleanup toDelete df).1.deletedCount =
      (toDelete.filter (fun s => (failsOn df s).isNone)).length ∧
    (executeCleanup toDelete df).1.reclaimedBytes =
      sumSize (toDelete.filter (fun s => (failsOn df s).isNone)) ∧
    (executeCleanup toDelete df).2 =
      toDelete.filterMap (fun s => sessPathTruthy s.filePath) := by
  unfold executeCleanup
  rw [cleanupLoop_spec]
  simp

theorem sumSize_append (a b : List Session) :
    sumSize (a ++ b) = sumSize a + sumSize b := by
  simp [sumSize]

/-- Claim C10: a victim whose `filePath` is absent or empty triggers no
`deleteSession` call, yet is still counted as deleted and its size
added to `reclaimedBytes` (and it produces no error entry). -/
theorem claim_c10 (l1 l2 : List Session) (s : Session) (df : String → Option String)
    (h : sessPathTruthy s.filePath = none) :
    (executeCleanup (l1 ++ s :: l2) df).2 = (executeCleanup (l1 ++ l2) df).2 ∧
    (executeCleanup (l1 ++ s :: l2) df).1.deletedCount =
      (executeCleanup (l1 ++ l2) df).1.deletedCount + 1 ∧
    (executeCleanup (l1 ++ s :: l2) df).1.reclaimedBytes =
      (executeCleanup (l1 ++ l2) df).1.reclaimedBytes + sessSize s ∧
    (executeCleanup (l1 ++ s :: l2) df).1.errors =
      (executeCleanup (l1 ++ l2) df).1.errors := by
  have hfails : failsOn df s = none := by simp [failsOn, h]
  unfold executeCleanup
  rw [cleanupLoop_spec, cleanupLoop_spec]
  refine ⟨?_, ?_, ?_, ?_⟩ <;>
    simp [List.filter_append, List.filterMap_append, List.filter_cons, List.filterMap_cons,
      hfails, h, sumSize_append, sumSize_cons, Nat.add_assoc, Nat.add_comm, Nat.add_left_comm]

/-- Closed instance of C10: a single path-less victim is counted as
deleted, its size reclaimed, with no storage call and no error. -/
theorem claim_c10_witness :
    (executeCleanup ([] ++ victimNoPath :: []) (fun _ => none)).2 =
      (executeCleanup ([] ++ []) (fun _ => none)).2 ∧
    (executeCleanup ([] ++ victimNoPath :: []) (fun _ => none)).1.deletedCount =
      (executeCleanup ([] ++ []) (fun _ => none)).1.deletedCount + 1 ∧
    (executeCleanup ([] ++ victimNoPath :: []) (fun _ => none)).1.reclaimedBytes =
      (executeCleanup ([] ++ []) (fun _ => none)).1.reclaimedBytes + sessSize victimNoPath ∧
    (executeCleanup ([] ++ victimNoPath :: []) (fun _ => none)).1.errors =
      (executeCleanup ([] ++ []) (fun _ => none)).1.errors := by
  exact claim_c10 [] [] victimNoPath (fun _ => none) rfl

/-! ## Lemmas about the filesystem model and atomic writes -/

theorem FS.get_cons (kv : String × List Nat) (fs : FS) (q : String) :
    FS.get (kv :: fs) q = if kv.1 = q then some kv.2 else FS.get fs q := by
  by_cases h : kv.1 = q
  · simp [FS.get, List.find?, h]
  · simp [FS.get, List.find?, h]

theorem FS.erase_cons_self (kv : String × List Nat) (fs : FS) (p : String)
    (h : kv.1 = p) : FS.erase (kv :: fs) p = FS.erase fs p := by
  simp [FS.erase, List.filter_cons, h]

theorem FS.erase_cons_ne (kv : String × List Nat) (fs : FS) (p : String)
    (h : ¬(kv.1 = p)) : FS.erase (kv :: fs) p = kv :: FS.erase fs p := by
  simp [FS.erase, List.filter_cons, h]

theorem FS.get_erase_self (fs : FS) (p : String) :
    FS.get (FS.erase fs p) p = none := by
  induction fs with
  | nil => rfl
  | cons kv rest ih =>
    by_cases h : kv.1 = p
    · rw [FS.erase_cons_self kv rest p h]; exact ih
    · rw [FS.erase_cons_ne kv rest p h, FS.get_cons, if_neg h]; exact ih

theorem FS.get_erase_ne (fs : FS) (p q : String) (h : ¬(q = p)) :
    FS.get (FS.erase fs p) q = FS.get fs q := by
  induction fs with
  | nil => rfl
  | cons kv rest ih =>
    by_cases hkp : kv.1 = p
    · have hkq : ¬(kv.1 = q) := by
        rw [hkp]; intro hq; exact h hq.symm
      rw [FS.erase_cons_self kv rest p hkp, ih, FS.get_cons, if_neg hkq]
    · rw [FS.erase_cons_ne kv rest p hkp, FS.get_cons, FS.get_cons]
      by_cases hkq : kv.1 = q
      · rw [if_pos hkq, if_pos hkq]
      · rw [if_neg hkq, if_neg hkq, ih]

theorem FS.get_put_self (fs : FS) (p : String) (data : List Nat) :
    FS.get (FS.put fs p data) p = some data := by
  show FS.get ((p, data) :: FS.erase fs p) p = some data
  rw [FS.get_cons, if_pos rfl]

theorem FS.get_put_ne (fs : FS) (p q : String) (data : List Nat) (h : ¬(q = p)) :
    FS.get (FS.put fs p data) q = FS.get fs q := by
  show FS.get ((p, data) :: FS.erase fs p) q = FS.get fs q
  rw [FS.get_cons, if_neg (fun hpq => h hpq.symm)]
  exact FS.get_erase_ne fs p q h

/-- A path never equals its own `.tmp` sibling. -/
theorem ne_tmp (p : String) : ¬(p = p ++ ".tmp") := by
  intro h
  have h2 := congrArg String.length h
  simp [String.length_append] at h2
  exact absurd h2 (by decide)

/-- Claim C4: `writeSession` writes the bytes to `path + ".tmp"` and
renames the temp file onto the target.  On success the target holds
exactly the given bytes and the temp file is gone; when the temp-file
write or the rename fails, the temp file is deleted, the original
error is re-raised, and the target is untouched — it never holds a
partially written file. -/
theorem claim_c4 (fs : FS) (p : String) (data : List Nat)
    (leftover : Option (List Nat)) (m1 m2 : String) :
    ((writeSession fs p data WriteFailure.success).2 = .ok () ∧
      FS.get (writeSession fs p data WriteFailure.success).1 p = some data ∧
      FS.get (writeSession fs p data WriteFailure.success).1 (p ++ ".tmp") = none) ∧
    ((writeSession fs p data (WriteFailure.writeFileFails leftover m1)).2 = .error m1 ∧
      FS.get (writeSession fs p data (WriteFailure.writeFileFails leftover m1)).1 p =
        FS.get fs p ∧
      FS.get (writeSession fs p data (WriteFailure.writeFileFails leftover m1)).1
        (p ++ ".tmp") = none) ∧
    ((writeSession fs p data (WriteFailure.renameFails m2)).2 = .error m2 ∧
      FS.get (writeSession fs p data (WriteFailure.renameFails m2)).1 p = FS.get fs p ∧
      FS.get (writeSession fs p data (WriteFailure.renameFails m2)).1 (p ++ ".tmp") = none) := by
  refine ⟨⟨rfl, ?_, ?_⟩, ⟨rfl, ?_, ?_⟩, ⟨rfl, ?_, ?_⟩⟩
  · show FS.get (FS.put (FS.erase (FS.put fs (p ++ ".tmp") data) (p ++ ".tmp")) p data) p =
      some data
    exact FS.get_put_self _ p data
  · show FS.get (FS.put (FS.erase (FS.put fs (p ++ ".tmp") data) (p ++ ".tmp")) p data)
      (p ++ ".tmp") = none
    rw [FS.get_put_ne _ p (p ++ ".tmp") data (fun h => ne_tmp p h.symm)]
    exact FS.get_erase_self _ _
  · rcases leftover with _ | d
    · show FS.get (FS.erase fs (p ++ ".tmp")) p = FS.get fs p
      exact FS.get_erase_ne fs (p ++ ".tmp") p (ne_tmp p)
    · show FS.get (FS.erase (FS.put fs (p ++ ".tmp") d) (p ++ ".tmp")) p = FS.get fs p
      rw [FS.get_erase_ne _ (p ++ ".tmp") p (ne_tmp p)]
      exact FS.get_put_ne fs (p ++ ".tmp") p d (ne_tmp p)
  · rcases leftover with _ | d
    · show FS.get (FS.erase fs (p ++ ".tmp")) (p ++ ".tmp") = none
      exact FS.get_erase_self _ _
    · show FS.get (FS.erase (FS.put fs (p ++ ".tmp") d) (p ++ ".tmp")) (p ++ ".tmp") = none
      exact FS.get_erase_self _ _
  · show FS.get (FS.erase (FS.put fs (p ++ ".tmp") data) (p ++ ".tmp")) p = FS.get fs p
    rw [FS.get_erase_ne _ (p ++ ".tmp") p (ne_tmp p)]
    exact FS.get_put_ne fs (p ++ ".tmp") p data (ne_tmp p)
  · show FS.get (FS.erase (FS.put fs (p ++ ".tmp") data) (p ++ ".tmp")) (p ++ ".tmp") = none
    exact FS.get_erase_self _ _

/-! ## Round trip -/

/-- When the written chunks fit under the cap, the write sequence never
trims: the buffer is exactly the chunk sequence. -/
theorem foldl_write_no_trim :
    ∀ (ds : List (List Nat)) (r : SessionRecorder),
      r.isAborted = false → r.isFinalized = false → RecGood r →
      r.totalSize + sumLen ds ≤ MAX_BUFFER_SIZE →
      ds.foldl SessionRecorder.write r =
        { chunks := r.chunks ++ ds, totalSize := r.totalSize + sumLen ds,
          isAborted := false, isFinalized := false } := by
  intro ds
  induction ds with
  | nil =>
    intro r ha hf hg hcap
    cases r
    simp_all [sumLen_nil]
  | cons d rest ih =>
    intro r ha hf hg hcap
    rw [List.foldl_cons]
    have hact : (r.isAborted || r.isFinalized) = false := by simp [ha, hf]
    rw [sumLen_cons] at hcap
    rw [write_no_trim r d hact (by omega)]
    have hgood1 : RecGood { r with chunks := r.chunks ++ [d], totalSize := r.totalSize + d.length } := by
      simp only [RecGood] at hg ⊢
      simp only [sumLen_append, sumLen_cons, sumLen_nil]
      omega
    have hr := ih { r with chunks := r.chunks ++ [d], totalSize := r.totalSize + d.length }
      ha hf hgood1 (by show r.totalSize + d.length + sumLen rest ≤ MAX_BUFFER_SIZE; omega)
    rw [hr]
    simp [List.append_assoc, sumLen_cons, Nat.add_assoc]

/-- Claim C6: streaming any chunk sequence that fits under the buffer
cap into a fresh recorder, finalizing, persisting and reading back via
`readSession` returns exactly the concatenation of the written chunks;
in particular writing `"a"`, `"b"`, `"c"` and finalizing yields
`uncompressedSize = 3` and reading the file back yields `"abc"`. -/
theorem claim_c6 :
    (∀ (ds : List (List Nat)) (p : String) (ec : Int),
      sumLen ds ≤ MAX_BUFFER_SIZE → recordAndRead ds ec p = .ok ds.flatten) ∧
    (Except.map (fun x => x.1.uncompressedSize)
        ((writeAll [strBytes "a", strBytes "b", strBytes "c"]).finalize 0) =
      .ok 3) ∧
    recordAndRead [strBytes "a", strBytes "b", strBytes "c"] 0 "history/k/1.gz" =
      .ok (strBytes "abc") ∧
    decodeAscii (strBytes "abc") = "abc" := by
  refine ⟨?_, by decide, by decide, by decide⟩
  intro ds p ec hsum
  unfold recordAndRead writeAll
  rw [foldl_write_no_trim ds SessionRecorder.init rfl rfl
    (by simp [RecGood, SessionRecorder.init, sumLen_nil])
    (by simpa [SessionRecorder.init] using hsum)]
  show (match SessionRecorder.finalize
      { chunks := SessionRecorder.init.chunks ++ ds,
        totalSize := SessionRecorder.init.totalSize + sumLen ds,
        isAborted := false, isFinalized := false } ec with
    | .error e => Except.error e
    | .ok res =>
      match (writeSession [] p res.1.compressed WriteFailure.success).2 with
      | .error e => Except.error e
      | .ok _ => readSession (writeSession [] p res.1.compressed WriteFailure.success).1 p) =
    Except.ok ds.flatten
  simp only [SessionRecorder.finalize, Bool.false_eq_true, if_false]
  show (match (writeSession [] p (gzipBytes (SessionRecorder.init.chunks ++ ds).flatten)
        WriteFailure.success).2 with
    | .error e => Except.error e
    | .ok _ => readSession
        (writeSession [] p (gzipBytes (SessionRecorder.init.chunks ++ ds).flatten)
          WriteFailure.success).1 p) = Except.ok ds.flatten
  show readSession
      (FS.put (FS.erase (FS.put [] (p ++ ".tmp") (gzipBytes (SessionRecorder.init.chunks ++ ds).flatten))
        (p ++ ".tmp")) p (gzipBytes (SessionRecorder.init.chunks ++ ds).flatten)) p =
    Except.ok ds.flatten
  unfold readSession
  rw [FS.get_put_self]
  simp [gzipBytes, gunzipBytes, SessionRecorder.init]

/-- Closed instance of C6: the three-chunk scenario satisfies the
general round-trip statement. -/
theorem claim_c6_witness :
    recordAndRead [strBytes "x", strBytes "yz"] 0 "history/k/2.gz" =
      .ok ([strBytes "x", strBytes "yz"].flatten) := by
  exact claim_c6.1 [strBytes "x", strBytes "yz"] "history/k/2.gz" 0 (by decide)

/-! ## endSession behaviour on unknown ids -/

theorem removeRecorder_find (m : HistoryManager) (sid : String) :
    (removeRecorder m sid).activeRecorders.find? (fun e => e.1 = sid) = none := by
  simp only [removeRecorder]
  rw [List.find?_eq_none]
  intro x hx
  have := List.of_mem_filter hx
  simpa using this

/-- Counterexample to claim C3 as stated: ending a session id with no
registered recorder does not fail with a not-found error — `endSession`
returns `null` (here `.ok none`), with no exception. -/
theorem claim_c3_counterexample :
    (endSession emptyManager "session-1" 0 WriteFailure.success (fun _ => none) 1000).2 =
      Except.ok none := rfl

/-- Claim C3 (amended): `endSession` on an id with no registered
recorder returns `null` without raising; and after any `endSession`
call the id is no longer registered (the `finally` cleanup), so a
second `endSession` after a successful first one also returns `null`. -/
theorem claim_c3_amended (m : HistoryManager) (sid : String) (ec : Int)
    (wf : WriteFailure) (df : String → Option String) (now : Nat) :
    (m.activeRecorders.find? (fun e => e.1 = sid) = none →
      (endSession m sid ec wf df now).2 = Except.ok none) ∧
    (endSession m sid ec wf df now).1.activeRecorders.find? (fun e => e.1 = sid) = none := by
  constructor
  · intro h
    unfold endSession
    rw [h]
  · unfold endSession
    split
    · next hfind => simpa using hfind
    · next kv hfind =>
      dsimp only
      split
      · exact removeRecorder_find _ _
      · split
        · exact removeRecorder_find _ _
        · split
          · exact removeRecorder_find _ _
          · exact removeRecorder_find _ _

/-- Closed instance of the amended C3 at a concrete manager. -/
theorem claim_c3_witness :
    (endSession emptyManager "session-2" 0 WriteFailure.success (fun _ => none) 5).2 =
      Except.ok none ∧
    (endSession emptyManager "session-2" 0 WriteFailure.success (fun _ => none) 5).1.activeRecorders.find?
      (fun e => e.1 = "session-2") = none := by
  exact ⟨(claim_c3_amended emptyManager "session-2" 0 WriteFailure.success (fun _ => none) 5).1 rfl,
    (claim_c3_amended emptyManager "session-2" 0 WriteFailure.success (fun _ => none) 5).2⟩

/-! ## Shape of the partition key -/

theorem compressBlock_length (hw b : List Nat) : (compressBlock hw b).length = 8 := rfl

theorem foldl_compressBlock_length :
    ∀ (bs : List (List Nat)) (hw : List Nat), hw.length = 8 →
      (bs.foldl compressBlock hw).length = 8 := by
  intro bs
  induction bs with
  | nil => intro hw h; exact h
  | cons b rest ih =>
    intro hw h
    rw [List.foldl_cons]
    exact ih (compressBlock hw b) (compressBlock_length hw b)

theorem beBytes_length (n x : Nat) : (beBytes n x).length = n := by
  simp [beBytes]

theorem flatMap_beBytes_length :
    ∀ l : List Nat, (l.flatMap (beBytes 4)).length = 4 * l.length := by
  intro l
  induction l with
  | nil => rfl
  | cons x rest ih =>
    simp only [List.flatMap_cons, List.length_append, beBytes_length, ih, List.length_cons]
    omega

theorem sha256_length (msg : List Nat) : (sha256 msg).length = 32 := by
  unfold sha256
  rw [flatMap_beBytes_length, foldl_compressBlock_length _ sha256H0 rfl]

theorem hexChars_length : ∀ l : List Nat, (hexChars l).length = 2 * l.length := by
  intro l
  induction l with
  | nil => rfl
  | cons x rest ih =>
    simp only [hexChars, List.flatMap_cons] at ih ⊢
    simp only [List.length_append, List.length_cons, List.length_nil, ih, List.length_cons]
    omega

theorem hexDigit_mem (n : Nat) : hexDigit n ∈ ("0123456789abcdef").data := by
  unfold hexDigit
  by_cases h10 : n < 10
  · rw [if_pos h10]
    interval_cases n <;> decide
  · rw [if_neg h10]
    by_cases h16 : n < 16
    · rw [if_pos h16]
      interval_cases n <;> decide
    · rw [if_neg h16]
      decide

theorem hexChars_mem (l : List Nat) (c : Char) (h : c ∈ hexChars l) :
    c ∈ ("0123456789abcdef").data := by
  rcases List.mem_flatMap.mp h with ⟨b, _, hmem⟩
  simp only [List.mem_cons, List.not_mem_nil, or_false] at hmem
  rcases hmem with h1 | h1 <;> exact h1 ▸ hexDigit_mem _

/-- Counterexample to claim C7 as stated: `path.normalize` preserves a
trailing slash, so `"/tmp/proj/"` and `"/tmp/proj"` — the same logical
directory up to a trailing slash — produce different partition keys. -/
theorem claim_c7_counterexample :
    getCwdHash "/tmp/proj/" ≠ getCwdHash "/tmp/proj" := by decide

/-- Claim C7 (amended): the partition key is a pure function of the
cwd (same input, same key, on every call), a successful key is 16
lower-case hex characters, and inputs that agree after normalization
plus lower-casing — in particular different letter case or redundant
internal slashes — map to the same key.  A trailing slash, however,
survives `path.normalize` and can change the key. -/
theorem claim_c7_amended :
    (∀ c1 c2 : String, c1 = c2 → getCwdHash c1 = getCwdHash c2) ∧
    (∀ cwd h : String, getCwdHash cwd = .ok h →
      h.length = 16 ∧ ∀ ch ∈ h.data, ch ∈ ("0123456789abcdef").data) ∧
    (∀ c1 c2 : String, ¬(c1 = "") → ¬(c2 = "") →
      (posixNormalizeChars c1.data).map Char.toLower =
        (posixNormalizeChars c2.data).map Char.toLower →
      getCwdHash c1 = getCwdHash c2) ∧
    getCwdHash "/TMP//Proj" = getCwdHash "/tmp/proj" := by
  refine ⟨?_, ?_, ?_, by decide⟩
  · intro c1 c2 h
    exact congrArg getCwdHash h
  · intro cwd h hok
    unfold getCwdHash at hok
    by_cases hemp : cwd = ""
    · rw [if_pos hemp] at hok; cases hok
    · rw [if_neg hemp] at hok
      have hh : h = String.mk ((hexChars (sha256
          (utf8Encode ((posixNormalizeChars cwd.data).map Char.toLower)))).take 16) := by
        cases hok; rfl
      subst hh
      constructor
      · show (List.take 16 _).length = 16
        rw [List.length_take, hexChars_length, sha256_length]
        omega
      · intro ch hch
        have hsub : ch ∈ hexChars (sha256
            (utf8Encode ((posixNormalizeChars cwd.data).map Char.toLower))) :=
          List.take_subset 16 _ hch
        exact hexChars_mem _ ch hsub
  · intro c1 c2 h1 h2 heq
    unfold getCwdHash
    rw [if_neg h1, if_neg h2, heq]

/-- Closed instance of the amended C7: case and redundant slashes do
not change the key. -/
theorem claim_c7_witness :
    getCwdHash "/Workspace/" = getCwdHash "/workspace//" :=
  claim_c7_amended.2.2.1 "/Workspace/" "/workspace//" (by decide) (by decide) (by decide)

end CrossAI
